import Mathlib

/-!
# Verification of the picca Pk1D pipeline and DLA masking code

Shallow embedding, over `ℚ`, of the decision logic of

* `bin/picca_Pk1D.py` — binning classification (`check_linear_binning`),
  the per-batch consistency check in `main`, and the per-spectrum driver
  `process_file` (selection cuts, forest segmentation, per-segment
  masked-pixel cut, and the final power combination);
* `py/picca/delta_extraction/mask.py` — the two masking policies
  (`_remove_pixels` / `_set_ivar_to_zero`) chosen by `Mask.__init__`;
* `py/picca/delta_extraction/masks/dla_mask.py` — `DlaMask.apply_mask`;
* `py/picca/delta_extraction/data_catalogues/desi_data.py` —
  `DesiData.set_blinding`.

Floating-point numbers are modelled as exact rationals; numpy arrays as
`List ℚ`; 2D arrays as `List (List ℚ)` (a list of rows).  Numerical
helper functions that live in `picca.pk1d` (not part of this code base)
are abstracted as opaque function parameters gathered in `Pk1dPrims`:
the properties proved here hold for every choice of those helpers.
-/

/-! ## Generic list helpers (numpy-style primitives) -/

/-- Insertion step for an ascending insertion sort on rationals. -/
def insertQ (x : ℚ) : List ℚ → List ℚ
  | [] => [x]
  | y :: ys => if x ≤ y then x :: y :: ys else y :: insertQ x ys

/-- Ascending insertion sort, modelling `np.sort` (used inside percentile). -/
def sortQ : List ℚ → List ℚ
  | [] => []
  | x :: xs => insertQ x (sortQ xs)

/-- `np.percentile(l, p)` with the default linear interpolation, for an
integer percentage `p`: the virtual index is `p·(n−1)/100`; the result
interpolates linearly between the two neighbouring order statistics. -/
def percentile (p : ℕ) (l : List ℚ) : ℚ :=
  let s := sortQ l
  let n := s.length
  if n = 0 then 0
  else
    let i : ℕ := p * (n - 1) / 100
    let frac : ℚ := ((p * (n - 1) % 100 : ℕ) : ℚ) / 100
    let lo := s.getD i 0
    let hi := s.getD (min (i + 1) (n - 1)) 0
    lo + frac * (hi - lo)

/-- `np.median` = 50th percentile (linear interpolation). -/
def npmedian (l : List ℚ) : ℚ := percentile 50 l

/-- `np.diff`: elementwise forward differences `l[i+1] - l[i]`. -/
def npdiff (l : List ℚ) : List ℚ := List.zipWith (fun a b => a - b) l.tail l

/-- `np.mean`: sum divided by length (the empty case, NaN in numpy, is the
junk value `0/0 = 0` here; no property proved below touches it). -/
def npmean (l : List ℚ) : ℚ := l.sum / (l.length : ℚ)

/-- Boolean-mask indexing `a[w]` of numpy: keep the entries of `l` at the
positions where `w` holds (the two lists have equal length at every use
site; `zip` truncates to the shorter one). -/
def boolSelect {α : Type} (l : List α) (w : List Bool) : List α :=
  ((l.zip w).filter (fun p => p.2)).map (fun p => p.1)

/-! ## `check_linear_binning` (bin/picca_Pk1D.py lines 21–56) -/

/-- The two `ValueError`s `check_linear_binning` can raise. -/
inductive BinningError where
  /-- "… probably submitted lambda as log_lambda" -/
  | lambdaAsLogLambda
  /-- "Could not figure out if linear or log wavelength binning was used" -/
  | cannotClassify
deriving DecidableEq

/-- `check_linear_binning(delta)`: classify the wavelength grid of a
spectrum as linearly or logarithmically binned and return the bin width.
`pow10` abstracts the (irrational) map `x ↦ 10**x`; every property below
holds for an arbitrary `pow10`.  Direct translation of lines 35–56. -/
def check_linear_binning (pow10 : ℚ → ℚ) (log_lambda : List ℚ) :
    Except BinningError (Bool × ℚ) :=
  let diff_lambda := npdiff (log_lambda.map pow10)
  let diff_log_lambda := npdiff log_lambda
  let q5_lambda := percentile 5 diff_lambda
  let q25_lambda := percentile 25 diff_lambda
  let q5_log_lambda := percentile 5 diff_log_lambda
  let q25_log_lambda := percentile 25 diff_log_lambda
  if q25_lambda - q5_lambda < 1e-6 then .ok (true, npmedian diff_lambda)
  else if q25_log_lambda - q5_log_lambda < 1e-6 ∧ q5_log_lambda < 0.01 then
    .ok (false, npmedian diff_log_lambda)
  else if q5_log_lambda ≥ 0.01 then .error .lambdaAsLogLambda
  else .error .cannotClassify

/-! ## The per-batch binning consistency check (bin/picca_Pk1D.py, `main`,
lines 222–253).  A file is a list of spectra; a spectrum is its
`log_lambda` array.  `main` classifies `deltas[0]` of the first file and,
for every later file, re-classifies that file's `deltas[0]` only,
raising on any mismatch of the boolean or the bin width (the `raise` of
a plain string at line 253 is itself a `TypeError`, still an immediate
abort, modelled as `.inhomogeneous`). -/

/-- Failures of the binning-consistency part of `main`. -/
inductive MainError where
  /-- `deltas[0]` on an empty file raises `IndexError`. -/
  | indexError
  /-- `check_linear_binning` raised. -/
  | binningError (e : BinningError)
  /-- the assertion `linear_binning2 == linear_binning ∧ delta_lam2 == delta_lam` failed. -/
  | inhomogeneous
deriving DecidableEq

/-- The loop body for files after the first: classify the first spectrum
of each file and compare with the classification of the first file. -/
def checkFileRest (pow10 : ℚ → ℚ) (lin : Bool) (dl : ℚ) :
    List (List (List ℚ)) → Except MainError Unit
  | [] => .ok ()
  | f :: rest =>
    match f.head? with
    | none => .error .indexError
    | some d0 =>
      match check_linear_binning pow10 d0 with
      | .error e => .error (.binningError e)
      | .ok p =>
        if p = (lin, dl) then checkFileRest pow10 lin dl rest
        else .error .inhomogeneous

/-- The binning classification and consistency checking that `main`
performs over the whole batch of input files. -/
def checkFiles (pow10 : ℚ → ℚ) : List (List (List ℚ)) → Except MainError Unit
  | [] => .ok ()
  | f0 :: rest =>
    match f0.head? with
    | none => .error .indexError
    | some d0 =>
      match check_linear_binning pow10 d0 with
      | .error e => .error (.binningError e)
      | .ok p => checkFileRest pow10 p.1 p.2 rest

/-! ## `DesiData.set_blinding` (desi_data.py lines 264–299) -/

/-- `set_blinding(is_mock, is_sv)` : from the configured blinding string
and the two flags, return the final value stored into `Forest.blinding`
(line 299) together with whether a warning was logged.  Direct
translation of the three branches. -/
def set_blinding (blinding : String) (is_mock is_sv : Bool) : String × Bool :=
  if is_mock then
    if blinding ≠ "none" then ("none", true) else (blinding, false)
  else if is_sv then
    if blinding ≠ "none" then ("none", true) else (blinding, false)
  else
    if blinding ≠ "corr_yshift" then ("corr_yshift", true) else (blinding, false)

/-! ## `process_file` (bin/picca_Pk1D.py lines 259–431) -/

/-- The command-line options `process_file` reads (with the source's
`args.*` names; counts are naturals, matching their argparse intent). -/
structure Args where
  SNR_min : ℚ
  reso_max : ℚ
  lambda_obs_min : ℚ
  nb_part : ℕ
  nb_pixel_min : ℕ
  nb_pixel_masked_max : ℕ
  no_apply_filling : Bool
  noise_estimate : String
  force_output_in_velocity : Bool

/-- The resolution-correction variant chosen once per run by `main`
(lines 230–245): the string variable `reso_correction` only ever holds
`"matrix"` or `"Gaussian"`. -/
inductive ResoCorrection where
  | matrix
  | gaussian
deriving DecidableEq

/-- Run-level state set by `main` before any spectrum is processed:
the binning classification (`linear_binning` and the bin width
`delta_lambda` / `delta_log_lambda`, a single rational here) and the
resolution-correction choice. -/
structure RunConfig where
  linear_binning : Bool
  delta_lam : ℚ
  reso_correction : ResoCorrection

/-- One spectrum as read into a `Delta` object (the fields
`process_file` reads). -/
structure Delta where
  log_lambda : List ℚ
  delta : List ℚ
  exposures_diff : List ℚ
  ivar : List ℚ
  mean_snr : ℚ
  mean_reso : ℚ
  resolution_matrix : Option (List (List ℚ))

/-- Modelled from the spec: the numerical helpers `split_forest`,
`rebin_diff_noise`, `fill_masked_pixels`, `compute_pk_raw`,
`compute_pk_noise`, `compute_correction_reso` and
`compute_correction_reso_matrix` are imported from `picca.pk1d`, which
is not part of this code base (spec §4.2–§4.6 describes them), and
`10**x`, `np.log(10)` and `constants.speed_light` are irrational.  All
are abstracted as opaque parameters; every property proved about
`process_file` holds for an arbitrary instantiation.  Argument orders
follow the call sites in `process_file`. -/
structure Pk1dPrims where
  pow10 : ℚ → ℚ
  split_forest : ℕ → ℚ → List ℚ → List ℚ → List ℚ → List ℚ → ℕ →
    Option (List (List ℚ)) →
    List ℚ × List (List ℚ) × List (List ℚ) × List (List ℚ) × List (List ℚ)
  rebin_diff_noise : ℚ → List ℚ → List ℚ → List ℚ
  fill_masked_pixels : ℚ → List ℚ → List ℚ → List ℚ → List ℚ → Bool →
    List ℚ × List ℚ × List ℚ × List ℚ × ℕ
  compute_pk_raw : ℚ → List ℚ → Bool → List ℚ × List ℚ
  compute_pk_noise : ℚ → List ℚ → List ℚ → Bool → Bool → List ℚ × List ℚ
  compute_correction_reso : ℚ → ℚ → List ℚ → List ℚ
  compute_correction_reso_matrix : Option (List (List ℚ)) → List ℚ → ℚ → ℕ →
    List ℚ
  speed_light : ℚ
  ln10 : ℚ

/-- The one per-segment result record appended to `pk_list`
(lines 427–430), in source order. -/
structure PartResult where
  k : List ℚ
  pk_raw : List ℚ
  pk_noise : List ℚ
  pk_diff : List ℚ
  correction_reso : List ℚ
  pk : List ℚ
  mean_z : ℚ
  num_masked_pixels : ℕ
deriving DecidableEq

/-- The only unhandled exception `process_file` itself can raise: the
local variable `pk` is read (line 424/427) without having been assigned
by any branch of the combine step (lines 411–422). -/
inductive PkError where
  | unboundLocalPk
deriving DecidableEq

/-- Lines 282–287: `first_pixel_index = argmax(10**log_lambda > lambda_obs_min)
if any else len`.  Index of the first entry strictly above the floor,
or the length when there is none (argmax of an all-False boolean array
is 0 in numpy, but the `np.any` guard routes that case to `len`). -/
def firstPixelIndex (lambda_obs_min : ℚ) : List ℚ → ℕ
  | [] => 0
  | x :: xs => if lambda_obs_min < x then 0 else firstPixelIndex lambda_obs_min xs + 1

/-- Lines 294–297: `num_parts = min(args.nb_part, (len - first) // nb_pixel_min)`,
the number of segments requested from `split_forest`. -/
def numParts (args : Args) (n first : ℕ) : ℕ :=
  min args.nb_part ((n - first) / args.nb_pixel_min)

/-- `mode ∈ {pipeline, diff, rebin_diff, mean_diff, mean_rebin_diff}`:
the noise-estimate strings for which the combine step (lines 411–422)
assigns `pk`.  `argparse` accepts any other string as well (no
`choices=` constraint), which is what C9 is about. -/
abbrev validNoiseEstimate (mode : String) : Prop :=
  mode = "pipeline" ∨ mode = "diff" ∨ mode = "rebin_diff" ∨
    mode = "mean_diff" ∨ mode = "mean_rebin_diff"

/-- COMBINE (lines 411–422): the final power for one segment, `none`
when no branch assigns `pk` (the `UnboundLocalError` of C9).  The numpy
expressions are elementwise; `np.mean(pk_diff[selection])` selects by a
boolean array over `k`. -/
def combinePk (mode : String) (k pk_raw pk_noise pk_diff correction_reso : List ℚ) :
    Option (List ℚ) :=
  if mode = "pipeline" then
    some (List.zipWith (fun a b => a / b)
      (List.zipWith (fun a b => a - b) pk_raw pk_noise) correction_reso)
  else if mode = "diff" ∨ mode = "rebin_diff" then
    some (List.zipWith (fun a b => a / b)
      (List.zipWith (fun a b => a - b) pk_raw pk_diff) correction_reso)
  else if mode = "mean_diff" ∨ mode = "mean_rebin_diff" then
    let selection : List Bool :=
      if mode = "mean_rebin_diff" then k.map (fun x => decide (0.003 < x ∧ x < 0.02))
      else k.map (fun x => decide (0 < x ∧ x < 0.02))
    let mean_pk_diff := npmean (boolSelect pk_diff selection)
    some (List.zipWith (fun a b => a / b)
      (pk_raw.map (fun a => a - mean_pk_diff)) correction_reso)
  else none

/-- Lines 326–336: under the `rebin_diff` / `mean_rebin_diff` modes the
segment's `exposures_diff` array is replaced by its rebinned version
before filling. -/
def partEdiff (P : Pk1dPrims) (args : Args) (cfg : RunConfig)
    (coord ediff : List ℚ) : List ℚ :=
  if args.noise_estimate = "rebin_diff" ∨ args.noise_estimate = "mean_rebin_diff" then
    P.rebin_diff_noise cfg.delta_lam coord ediff
  else ediff

/-- Lines 338–352: `fill_masked_pixels` on one segment (after the
optional rebinning); returns
`(coord_new, delta_new, exposures_diff_new, ivar_new, num_masked_pixels)`. -/
def partFill (P : Pk1dPrims) (args : Args) (cfg : RunConfig)
    (coord dl ediff iv : List ℚ) : List ℚ × List ℚ × List ℚ × List ℚ × ℕ :=
  P.fill_masked_pixels cfg.delta_lam coord dl (partEdiff P args cfg coord ediff) iv
    args.no_apply_filling

/-- Lines 356–364: `compute_pk_raw` on the filled segment, returning
`(k, pk_raw)`. -/
def partKRaw (P : Pk1dPrims) (args : Args) (cfg : RunConfig)
    (coord dl ediff iv : List ℚ) : List ℚ × List ℚ :=
  P.compute_pk_raw cfg.delta_lam (partFill P args cfg coord dl ediff iv).2.1
    cfg.linear_binning

/-- Lines 366–381: `compute_pk_noise` on the filled segment (Monte-Carlo
pipeline noise computed only under the `pipeline` mode), returning
`(pk_noise, pk_diff)`. -/
def partNoise (P : Pk1dPrims) (args : Args) (cfg : RunConfig)
    (coord dl ediff iv : List ℚ) : List ℚ × List ℚ :=
  P.compute_pk_noise cfg.delta_lam (partFill P args cfg coord dl ediff iv).2.2.2.1
    (partFill P args cfg coord dl ediff iv).2.2.1
    (args.noise_estimate = "pipeline") cfg.linear_binning

/-- Lines 383–408: the resolution correction for one segment — the
matrix variant or the Gaussian variant (with the mean resolution
converted to Å) under linear binning, the Gaussian variant in velocity
units under log binning. -/
def partCorrection (P : Pk1dPrims) (args : Args) (cfg : RunConfig) (delta : Delta)
    (coord dl ediff iv : List ℚ) : List ℚ :=
  if cfg.linear_binning then
    match cfg.reso_correction with
    | .matrix =>
      P.compute_correction_reso_matrix delta.resolution_matrix
        (partKRaw P args cfg coord dl ediff iv).1 cfg.delta_lam
        (partFill P args cfg coord dl ediff iv).1.length
    | .gaussian =>
      P.compute_correction_reso cfg.delta_lam
        (cfg.delta_lam * delta.mean_reso / P.ln10 / P.speed_light * 1000)
        (partKRaw P args cfg coord dl ediff iv).1
  else
    P.compute_correction_reso (cfg.delta_lam * P.ln10 * P.speed_light / 1000)
      delta.mean_reso (partKRaw P args cfg coord dl ediff iv).1

/-- The body of the `for part_index in range(num_parts)` loop
(lines 324–430) for one segment: `ok none` models `continue` (segment
skipped for too many masked pixels), `ok (some r)` the record appended
to `pk_list`, `error` the unbound-`pk` exception.  The final optional
velocity conversion (lines 424–426) rescales `pk` and `k`. -/
def processPart (P : Pk1dPrims) (args : Args) (cfg : RunConfig) (delta : Delta)
    (mean_z : ℚ) (coord dl ediff iv : List ℚ) :
    Except PkError (Option PartResult) :=
  if args.nb_pixel_masked_max < (partFill P args cfg coord dl ediff iv).2.2.2.2 then
    .ok none
  else
    match combinePk args.noise_estimate (partKRaw P args cfg coord dl ediff iv).1
      (partKRaw P args cfg coord dl ediff iv).2
      (partNoise P args cfg coord dl ediff iv).1
      (partNoise P args cfg coord dl ediff iv).2
      (partCorrection P args cfg delta coord dl ediff iv) with
    | none => .error .unboundLocalPk
    | some pk0 =>
      let conv := args.force_output_in_velocity && cfg.linear_binning
      let factor := P.speed_light / 1000 /
        npmean (partFill P args cfg coord dl ediff iv).1
      .ok (some
        { k := if conv then
            (partKRaw P args cfg coord dl ediff iv).1.map (fun x => x / factor)
          else (partKRaw P args cfg coord dl ediff iv).1
          pk_raw := (partKRaw P args cfg coord dl ediff iv).2
          pk_noise := (partNoise P args cfg coord dl ediff iv).1
          pk_diff := (partNoise P args cfg coord dl ediff iv).2
          correction_reso := partCorrection P args cfg delta coord dl ediff iv
          pk := if conv then pk0.map (fun x => x * factor) else pk0
          mean_z := mean_z
          num_masked_pixels := (partFill P args cfg coord dl ediff iv).2.2.2.2 })

/-- `first_pixel_index` for a given spectrum (line 285). -/
def firstPix (P : Pk1dPrims) (args : Args) (delta : Delta) : ℕ :=
  firstPixelIndex args.lambda_obs_min (delta.log_lambda.map P.pow10)

/-- `num_parts` for a given spectrum (lines 294–297); this is the count
`process_file` passes to `split_forest` (see `splitData`). -/
def nParts (P : Pk1dPrims) (args : Args) (delta : Delta) : ℕ :=
  numParts args delta.log_lambda.length (firstPix P args delta)

/-- Lines 298–321: the single `split_forest` call — on the wavelength
array for linear binning, on `log_lambda` for log binning, with the
resolution matrix passed only under the matrix correction. -/
def splitData (P : Pk1dPrims) (args : Args) (cfg : RunConfig) (delta : Delta) :
    List ℚ × List (List ℚ) × List (List ℚ) × List (List ℚ) × List (List ℚ) :=
  P.split_forest (nParts P args delta) cfg.delta_lam
    (if cfg.linear_binning then delta.log_lambda.map P.pow10 else delta.log_lambda)
    delta.delta delta.exposures_diff delta.ivar (firstPix P args delta)
    (match cfg.reso_correction with
     | .matrix => delta.resolution_matrix
     | .gaussian => none)

/-- The data of segment `i`:
`(mean_z_array[i], coord_array[i], delta_array[i], exposures_diff_array[i], ivar_array[i])`. -/
def partArgsOf (P : Pk1dPrims) (args : Args) (cfg : RunConfig) (delta : Delta)
    (i : ℕ) : ℚ × List ℚ × List ℚ × List ℚ × List ℚ :=
  ((splitData P args cfg delta).1.getD i 0,
   (splitData P args cfg delta).2.1.getD i [],
   (splitData P args cfg delta).2.2.1.getD i [],
   (splitData P args cfg delta).2.2.2.1.getD i [],
   (splitData P args cfg delta).2.2.2.2.getD i [])

/-- The loop body applied to segment `i`. -/
def partRun (P : Pk1dPrims) (args : Args) (cfg : RunConfig) (delta : Delta)
    (i : ℕ) : Except PkError (Option PartResult) :=
  processPart P args cfg delta (partArgsOf P args cfg delta i).1
    (partArgsOf P args cfg delta i).2.1 (partArgsOf P args cfg delta i).2.2.1
    (partArgsOf P args cfg delta i).2.2.2.1 (partArgsOf P args cfg delta i).2.2.2.2

/-- The masked-pixel count `fill_masked_pixels` reports for segment `i`
(the number the cut at line 353 compares against `nb_pixel_masked_max`). -/
def partMasked (P : Pk1dPrims) (args : Args) (cfg : RunConfig) (delta : Delta)
    (i : ℕ) : ℕ :=
  (partFill P args cfg (partArgsOf P args cfg delta i).2.1
    (partArgsOf P args cfg delta i).2.2.1 (partArgsOf P args cfg delta i).2.2.2.1
    (partArgsOf P args cfg delta i).2.2.2.2).2.2.2.2

/-- Run the segment loop over the given indices, collecting the emitted
records in order; a raised exception aborts at the raising segment. -/
def runParts (f : ℕ → Except PkError (Option PartResult)) :
    List ℕ → Except PkError (List PartResult)
  | [] => .ok []
  | i :: rest =>
    match f i with
    | .error e => .error e
    | .ok none => runParts f rest
    | .ok (some r) =>
      match runParts f rest with
      | .error e => .error e
      | .ok l => .ok (r :: l)

/-- `process_file(delta)` (lines 259–431): `ok none` models `return None`
(spectrum rejected), `ok (some l)` a returned `pk_list`, `error` an
unhandled exception escaping the call. -/
def process_file (P : Pk1dPrims) (args : Args) (cfg : RunConfig) (delta : Delta) :
    Except PkError (Option (List PartResult)) :=
  if delta.mean_snr ≤ args.SNR_min ∨ args.reso_max ≤ delta.mean_reso then .ok none
  else if delta.log_lambda.length - firstPix P args delta < args.nb_pixel_min then
    .ok none
  else
    match runParts (partRun P args cfg delta) (List.range (nParts P args delta)) with
    | .error e => .error e
    | .ok l => .ok (some l)

/-- The record segment `i` contributes to the returned list: `none` when
the segment is skipped (or, for an invalid noise-estimate mode, when the
loop raises instead). -/
def okPart : Except PkError (Option PartResult) → Option PartResult
  | .ok r => r
  | .error _ => none

/-! ## Masking (mask.py and masks/dla_mask.py) -/

/-- Modelled from the spec: the `Forest` class
(`delta_extraction/astronomical_objects/forest.py`) is not part of this
code base; per spec §3/§4.9 its maskable per-pixel fields
(`Forest.mask_fields`) are the 1D arrays below plus the 2D
`resolution_matrix` (rows × pixels), and it carries a multiplicative
`transmission_correction` and a line-of-sight id. -/
structure Forest where
  log_lambda : List ℚ
  flux : List ℚ
  ivar : List ℚ
  exposures_diff : List ℚ
  transmission_correction : List ℚ
  resolution_matrix : List (List ℚ)
  los_id : ℕ
deriving DecidableEq

/-- `_remove_pixels` (mask.py lines 6–10) applied to every mask field:
1D fields are sliced by the keep-mask `w`; the 2D `resolution_matrix`
is sliced along its second (column) axis, i.e. every row is sliced. -/
def removePixels (w : List Bool) (f : Forest) : Forest where
  log_lambda := boolSelect f.log_lambda w
  flux := boolSelect f.flux w
  ivar := boolSelect f.ivar w
  exposures_diff := boolSelect f.exposures_diff w
  transmission_correction := boolSelect f.transmission_correction w
  resolution_matrix := f.resolution_matrix.map (fun row => boolSelect row w)
  los_id := f.los_id

/-- `_set_ivar_to_zero` (mask.py lines 12–14) applied to every mask
field: only `ivar` changes — `ivar[~w] = 0`. -/
def setIvarToZero (w : List Bool) (f : Forest) : Forest :=
  { f with ivar := List.zipWith (fun x b => if b then x else 0) f.ivar w }

/-- `Mask.__init__` (mask.py lines 40–47): the masking policy selected by
`keep_masked_pixels` — `_set_ivar_to_zero` when true, `_remove_pixels`
when false. -/
def masker (keep_masked_pixels : Bool) : List Bool → Forest → Forest :=
  if keep_masked_pixels then setIvarToZero else removePixels

/-- One row of the optional rest-frame exclusion table
(`self.mask`, dla_mask.py lines 236–250). -/
structure MaskRange where
  wave_min : ℚ
  wave_max : ℚ
deriving DecidableEq

/-- State of a `DlaMask` instance as `apply_mask` reads it: the DLA
catalogue grouped by line-of-sight id (an association list id ↦ list of
`(z_abs, NHI)` pairs, dla_mask.py lines 219–223), the transmission
limit, the exclusion table and the masking policy inherited from `Mask`. -/
structure DlaMask where
  los_ids : List (ℕ × List (ℚ × ℚ))
  dla_mask_limit : ℚ
  mask : List MaskRange
  keep_masked_pixels : Bool

/-- `self.los_ids.get(los_id)` — dictionary lookup, `none` when the
line of sight has no catalogued absorber. -/
def lookupLos (cat : List (ℕ × List (ℚ × ℚ))) (id : ℕ) : Option (List (ℚ × ℚ)) :=
  (cat.find? (fun p => decide (p.1 = id))).map (fun p => p.2)

/-- dla_mask.py lines 269–272: `dla_transmission = np.ones(len(lambda_))`
then `*= dla_profile(lambda_, z_abs, nhi)` for every absorber on the
line of sight.  `prof` abstracts the pointwise `dla_profile`
(a Voigt-profile transmission, transcendental — spec §4.8). -/
def dlaTransmission (prof : ℚ → ℚ → ℚ → ℚ) (lam : List ℚ)
    (dlas : List (ℚ × ℚ)) : List ℚ :=
  dlas.foldl
    (fun acc zd => List.zipWith (fun a b => a * b) acc (lam.map (fun x => prof x zd.1 zd.2)))
    (List.replicate lam.length 1)

/-- dla_mask.py lines 274–281: the keep-mask — pixels whose cumulative
transmission exceeds the limit, intersected, for every exclusion range
and every absorber, with the pixels whose rest-frame wavelength
`lambda/(1+z_abs)` falls outside the range. -/
def keepMask (prof : ℚ → ℚ → ℚ → ℚ) (limit : ℚ) (mask : List MaskRange)
    (lam : List ℚ) (dlas : List (ℚ × ℚ)) : List Bool :=
  mask.foldl
    (fun w r =>
      dlas.foldl
        (fun w zd =>
          List.zipWith
            (fun b x =>
              b && decide (x / (1 + zd.1) < r.wave_min ∨ r.wave_max < x / (1 + zd.1)))
            w lam)
        w)
    ((dlaTransmission prof lam dlas).map (fun t => decide (limit < t)))

/-- `DlaMask.apply_mask(forest)` (dla_mask.py lines 252–286): no-op when
the line of sight has no catalogued absorber; otherwise accumulate the
cumulative DLA transmission onto `transmission_correction` and apply the
selected masking policy with the keep-mask to every mask field.
`pow10` abstracts `10**log_lambda`. -/
def apply_mask (pow10 : ℚ → ℚ) (prof : ℚ → ℚ → ℚ → ℚ) (m : DlaMask)
    (f : Forest) : Forest :=
  match lookupLos m.los_ids f.los_id with
  | none => f
  | some dlas =>
    masker m.keep_masked_pixels
      (keepMask prof m.dla_mask_limit m.mask (f.log_lambda.map pow10) dlas)
      { f with transmission_correction :=
          (List.zipWith (fun a b => a * b) f.transmission_correction
            (dlaTransmission prof (f.log_lambda.map pow10) dlas)) }

/-! ## Specification-side definitions (the claims' own wording) -/

/-- The mean of `pk_diff` over the wavenumber band `lo < k < hi`
(the claims' description of the `mean_diff` / `mean_rebin_diff` noise
floor). -/
def meanBand (lo hi : ℚ) (k pkd : List ℚ) : ℚ :=
  npmean (((k.zip pkd).filter (fun p => decide (lo < p.1 ∧ p.1 < hi))).map (fun p => p.2))

/-- The claims' `noise_term` at wavenumber index `i`: the pipeline noise
power for `pipeline`, the difference power for `diff` / `rebin_diff`,
and a flat band mean of the difference power for the `mean` modes
(`0 < k < 0.02`, resp. `0.003 < k < 0.02`). -/
def noiseTerm (mode : String) (k pk_noise pk_diff : List ℚ) (i : ℕ) : ℚ :=
  if mode = "pipeline" then pk_noise.getD i 0
  else if mode = "diff" ∨ mode = "rebin_diff" then pk_diff.getD i 0
  else if mode = "mean_rebin_diff" then meanBand 0.003 0.02 k pk_diff
  else meanBand 0 0.02 k pk_diff

/-- C1's property for one emitted segment record: the final power equals
`(pk_raw − noise_term) / correction_reso` elementwise. -/
def finalPowerSpec (mode : String) (r : PartResult) : Prop :=
  ∀ i, i < r.pk_raw.length →
    r.pk.getD i 0 =
      (r.pk_raw.getD i 0 - noiseTerm mode r.k r.pk_noise r.pk_diff i) /
        r.correction_reso.getD i 0

/-- C2's property: the complete case analysis of the binning classifier,
phrased as the claim states it. -/
def binningClassifierSpec (pow10 : ℚ → ℚ) (log_lambda : List ℚ) : Prop :=
  (percentile 25 (npdiff (log_lambda.map pow10)) -
      percentile 5 (npdiff (log_lambda.map pow10)) < 1e-6 →
    check_linear_binning pow10 log_lambda =
      .ok (true, npmedian (npdiff (log_lambda.map pow10)))) ∧
  (¬ percentile 25 (npdiff (log_lambda.map pow10)) -
      percentile 5 (npdiff (log_lambda.map pow10)) < 1e-6 →
    percentile 25 (npdiff log_lambda) - percentile 5 (npdiff log_lambda) < 1e-6 ∧
      percentile 5 (npdiff log_lambda) < 0.01 →
    check_linear_binning pow10 log_lambda =
      .ok (false, npmedian (npdiff log_lambda))) ∧
  (check_linear_binning pow10 log_lambda = .error .lambdaAsLogLambda ↔
    (¬ percentile 25 (npdiff (log_lambda.map pow10)) -
        percentile 5 (npdiff (log_lambda.map pow10)) < 1e-6 ∧
     ¬ (percentile 25 (npdiff log_lambda) - percentile 5 (npdiff log_lambda) < 1e-6 ∧
        percentile 5 (npdiff log_lambda) < 0.01) ∧
     0.01 ≤ percentile 5 (npdiff log_lambda))) ∧
  (check_linear_binning pow10 log_lambda = .error .cannotClassify ↔
    (¬ percentile 25 (npdiff (log_lambda.map pow10)) -
        percentile 5 (npdiff (log_lambda.map pow10)) < 1e-6 ∧
     ¬ (percentile 25 (npdiff log_lambda) - percentile 5 (npdiff log_lambda) < 1e-6 ∧
        percentile 5 (npdiff log_lambda) < 0.01) ∧
     percentile 5 (npdiff log_lambda) < 0.01))

/-- C4's spectrum-rejection condition, phrased as the claim states it:
mean SNR at or below the floor, mean resolution at or above the ceiling,
or fewer than `nb_pixel_min` pixels strictly past the
observed-wavelength floor. -/
def rejectsSpectrum (P : Pk1dPrims) (args : Args) (delta : Delta) : Prop :=
  delta.mean_snr ≤ args.SNR_min ∨ args.reso_max ≤ delta.mean_reso ∨
    (delta.log_lambda.map P.pow10).countP
      (fun x => decide (args.lambda_obs_min < x)) < args.nb_pixel_min

/-- C4's property: spectrum-level rejection returns `None` exactly under
`rejectsSpectrum` (no exception); an accepted spectrum yields the list
of per-segment records in which segment `i` is omitted exactly when its
masked-pixel count strictly exceeds `nb_pixel_masked_max` (no
exception either way). -/
def rejectionSpec (P : Pk1dPrims) (args : Args) (cfg : RunConfig)
    (delta : Delta) : Prop :=
  (process_file P args cfg delta = .ok none ↔ rejectsSpectrum P args delta) ∧
  (¬ rejectsSpectrum P args delta →
    process_file P args cfg delta =
      .ok (some ((List.range (nParts P args delta)).filterMap
        (fun i => okPart (partRun P args cfg delta i)))) ∧
    ∀ i, i < nParts P args delta →
      (okPart (partRun P args cfg delta i) = none ↔
        args.nb_pixel_masked_max < partMasked P args cfg delta i))

/-- C7's property: with at least one catalogued absorber, `apply_mask`
multiplies `transmission_correction` elementwise by the product of the
absorber profiles and hands the masker a keep-mask holding exactly at
pixels above the transmission limit whose rest-frame wavelength avoids
every exclusion range for every absorber. -/
def dlaMaskSpec (pow10 : ℚ → ℚ) (prof : ℚ → ℚ → ℚ → ℚ) (m : DlaMask)
    (f : Forest) (dlas : List (ℚ × ℚ)) : Prop :=
  (apply_mask pow10 prof m f =
    masker m.keep_masked_pixels
      (keepMask prof m.dla_mask_limit m.mask (f.log_lambda.map pow10) dlas)
      { f with transmission_correction :=
          (List.zipWith (fun a b => a * b) f.transmission_correction
            (dlaTransmission prof (f.log_lambda.map pow10) dlas)) }) ∧
  (∀ i, i < f.log_lambda.length →
    (List.zipWith (fun a b => a * b) f.transmission_correction
        (dlaTransmission prof (f.log_lambda.map pow10) dlas)).getD i 0 =
      f.transmission_correction.getD i 0 *
        (dlas.map (fun zd => prof ((f.log_lambda.map pow10).getD i 0) zd.1 zd.2)).prod) ∧
  (∀ i, i < f.log_lambda.length →
    ((keepMask prof m.dla_mask_limit m.mask (f.log_lambda.map pow10) dlas).getD i false = true ↔
      (m.dla_mask_limit <
        (dlaTransmission prof (f.log_lambda.map pow10) dlas).getD i 0 ∧
       ∀ r ∈ m.mask, ∀ zd ∈ dlas,
         (f.log_lambda.map pow10).getD i 0 / (1 + zd.1) < r.wave_min ∨
           r.wave_max < (f.log_lambda.map pow10).getD i 0 / (1 + zd.1))))

/-- C8's property: with `keep_masked_pixels = true` only `ivar` changes
(zeroed at masked indices, length kept); with `false` every mask field
shrinks by exactly the masked-pixel count (`w.countP (!·)`), rows of the
resolution matrix included. -/
def maskingPolicySpec (w : List Bool) (f : Forest) : Prop :=
  (masker true w f =
      { f with ivar := List.zipWith (fun x b => if b then x else 0) f.ivar w } ∧
    (masker true w f).ivar.length = f.ivar.length ∧
    ∀ i, i < w.length →
      (masker true w f).ivar.getD i 0 =
        if w.getD i false then f.ivar.getD i 0 else 0) ∧
  ((masker false w f).log_lambda.length =
      f.log_lambda.length - w.countP (fun b => !b) ∧
    (masker false w f).flux.length = f.flux.length - w.countP (fun b => !b) ∧
    (masker false w f).ivar.length = f.ivar.length - w.countP (fun b => !b) ∧
    (masker false w f).exposures_diff.length =
      f.exposures_diff.length - w.countP (fun b => !b) ∧
    (masker false w f).transmission_correction.length =
      f.transmission_correction.length - w.countP (fun b => !b) ∧
    (masker false w f).resolution_matrix =
      f.resolution_matrix.map (fun row => boolSelect row w) ∧
    ∀ row ∈ f.resolution_matrix,
      (boolSelect row w).length = row.length - w.countP (fun b => !b))

/-! ## Concrete instances used to evaluate the development on inputs -/

/-- A trivial instantiation of the abstract numerical helpers
(`Pk1dPrims`), used to run the pipeline on concrete inputs. -/
def trivialPrims : Pk1dPrims where
  pow10 := fun x => x
  split_forest := fun _ _ coord dl ediff iv first _ =>
    ([0], [coord.drop first], [dl.drop first], [ediff.drop first], [iv.drop first])
  rebin_diff_noise := fun _ _ e => e
  fill_masked_pixels := fun _ coord dl ediff iv _ => (coord, dl, ediff, iv, 0)
  compute_pk_raw := fun _ d _ => (d, d)
  compute_pk_noise := fun _ iv e _ _ => (iv, e)
  compute_correction_reso := fun _ _ k => k
  compute_correction_reso_matrix := fun _ k _ _ => k
  speed_light := 1
  ln10 := 1

/-- Concrete options (pipeline noise estimate). -/
def argsA : Args where
  SNR_min := 0
  reso_max := 10
  lambda_obs_min := 0
  nb_part := 1
  nb_pixel_min := 1
  nb_pixel_masked_max := 0
  no_apply_filling := false
  noise_estimate := "pipeline"
  force_output_in_velocity := false

/-- Concrete options with a noise-estimate string outside the five
recognized values. -/
def argsB : Args := { argsA with noise_estimate := "bogus" }

/-- A concrete spectrum passing all selection cuts of `argsA`. -/
def deltaA : Delta where
  log_lambda := [1, 2]
  delta := [1, 1]
  exposures_diff := [0, 0]
  ivar := [1, 1]
  mean_snr := 1
  mean_reso := 0
  resolution_matrix := none

/-- A concrete run configuration (log binning, Gaussian correction). -/
def cfgA : RunConfig where
  linear_binning := false
  delta_lam := 1
  reso_correction := .gaussian

/-- A concrete forest. -/
def forestA : Forest where
  log_lambda := [1, 2]
  flux := [1, 1]
  ivar := [1, 1]
  exposures_diff := [0, 0]
  transmission_correction := [1, 1]
  resolution_matrix := [[1, 1]]
  los_id := 7

/-- A DLA mask whose catalogue is empty. -/
def dlaMaskA : DlaMask where
  los_ids := []
  dla_mask_limit := 1/2
  mask := []
  keep_masked_pixels := false

/-- A DLA mask with one absorber on line of sight 7 and one exclusion
range. -/
def dlaMaskB : DlaMask where
  los_ids := [(7, [(1, 2)])]
  dla_mask_limit := 1/2
  mask := [{ wave_min := 1, wave_max := 2 }]
  keep_masked_pixels := false

/-- The record `processPart` emits for the concrete segment
`(0, [1], [2], [0], [1])` under `trivialPrims`, `argsA`, `cfgA`. -/
def partResultA : PartResult where
  k := [2]
  pk_raw := [2]
  pk_noise := [1]
  pk_diff := [0]
  correction_reso := [2]
  pk := [1/2]
  mean_z := 0
  num_masked_pixels := 0

/-- `10^x` at the seven grid points of the two log-binned spectra
`[0, 0.008, 0.016, 0.024]` and `[0, 0.009, 0.018, 0.027]`, as the exact
rationals given by the double-precision value of `10**x` (relative error
below 1e-15).  Every branch decision of `check_linear_binning` on these
spectra has margin at least 1.3e-4 against the 1e-6 tolerance and 1e-3
against the 0.01 cut, so the classification is the same for this table,
for the true `10^x`, and for the float64 run of the source.  Inputs
below evaluate the function only at these seven points. -/
def pow10grid (x : ℚ) : ℚ :=
  if x = 0 then 1
  else if x = 0.008 then 1.0185913880541169
  else if x = 0.016 then 1.0375284158180127
  else if x = 0.024 then 1.0568175092136585
  else if x = 0.009 then 1.02093948370768
  else if x = 0.018 then 1.0423174293933042
  else if x = 0.027 then 1.0641430182243161
  else 1

/-! ## Helper lemmas -/

theorem getD_zipWith {α β γ : Type} (f : α → β → γ) (da : α) (db : β) (dc : γ) :
    ∀ (a : List α) (b : List β) (i : ℕ), i < a.length → i < b.length →
      (List.zipWith f a b).getD i dc = f (a.getD i da) (b.getD i db) := by
  intro a
  induction a with
  | nil => intro b i ha; simp at ha
  | cons x xs ih =>
    intro b i ha hb
    cases b with
    | nil => simp at hb
    | cons y ys =>
      cases i with
      | zero => rfl
      | succ n =>
        simp only [List.zipWith_cons_cons, List.getD_cons_succ]
        exact ih ys n (by simpa using ha) (by simpa using hb)

theorem getD_map {α β : Type} (f : α → β) (da : α) (db : β) :
    ∀ (l : List α) (i : ℕ), i < l.length →
      (l.map f).getD i db = f (l.getD i da) := by
  intro l
  induction l with
  | nil => intro i hi; simp at hi
  | cons x xs ih =>
    intro i hi
    cases i with
    | zero => rfl
    | succ n =>
      simp only [List.map_cons, List.getD_cons_succ]
      exact ih n (by simpa using hi)

theorem length_zipWith_eq {α β γ : Type} (f : α → β → γ) (a : List α) (b : List β)
    (h : a.length = b.length) : (List.zipWith f a b).length = a.length := by
  simp [List.length_zipWith, h]

theorem boolSelect_map {α β : Type} (c : α → Bool) :
    ∀ (k : List α) (d : List β), k.length = d.length →
      boolSelect d (k.map c) =
        ((k.zip d).filter (fun p => c p.1)).map (fun p => p.2) := by
  intro k
  induction k with
  | nil =>
    intro d hd
    cases d with
    | nil => rfl
    | cons y ys => simp at hd
  | cons x xs ih =>
    intro d hd
    cases d with
    | nil => simp at hd
    | cons y ys =>
      have hd' : xs.length = ys.length := by simpa using hd
      by_cases hc : c x
      · simp [boolSelect, List.zip_cons_cons, List.filter_cons, hc] at ih ⊢
        exact ih ys hd'
      · simp only [Bool.not_eq_true] at hc
        simp [boolSelect, List.zip_cons_cons, List.filter_cons, hc] at ih ⊢
        exact ih ys hd'

theorem countP_bool_split : ∀ w : List Bool,
    w.countP (fun b => b) + w.countP (fun b => !b) = w.length := by
  intro w
  induction w with
  | nil => rfl
  | cons b bs ih =>
    cases b <;> simp [List.countP_cons] <;> omega

theorem boolSelect_length {α : Type} :
    ∀ (l : List α) (w : List Bool), l.length = w.length →
      (boolSelect l w).length = l.length - w.countP (fun b => !b) := by
  intro l
  induction l with
  | nil =>
    intro w hw
    cases w with
    | nil => rfl
    | cons b bs => simp at hw
  | cons x xs ih =>
    intro w hw
    cases w with
    | nil => simp at hw
    | cons b bs =>
      have hw' : xs.length = bs.length := by simpa using hw
      have hcount : bs.countP (fun b => !b) ≤ xs.length := by
        rw [hw']; exact List.countP_le_length _
      have ihs := ih bs hw'
      cases b
      · have hsel : boolSelect (x :: xs) (false :: bs) = boolSelect xs bs := by
          simp [boolSelect, List.filter_cons]
        rw [hsel, ihs]
        simp only [List.length_cons, List.countP_cons]
        simp
        try omega
      · have hsel : boolSelect (x :: xs) (true :: bs) = x :: boolSelect xs bs := by
          simp [boolSelect, List.filter_cons]
        rw [hsel]
        simp only [List.length_cons, List.countP_cons, ihs]
        simp
        try omega

theorem countP_firstPixelIndex (m : ℚ) :
    ∀ l : List ℚ, l.Pairwise (· ≤ ·) →
      l.countP (fun x => decide (m < x)) = l.length - firstPixelIndex m l := by
  intro l
  induction l with
  | nil => intro _; rfl
  | cons x xs ih =>
    intro hp
    obtain ⟨hx, hxs⟩ := List.pairwise_cons.mp hp
    by_cases hmx : m < x
    · have hall : xs.countP (fun x => decide (m < x)) = xs.length :=
        List.countP_eq_length.mpr fun y hy =>
          decide_eq_true (lt_of_lt_of_le hmx (hx y hy))
      simp [List.countP_cons, firstPixelIndex, hmx, hall]
    · have hfle : firstPixelIndex m xs ≤ xs.length := by
        clear ih hx hxs hp
        induction xs with
        | nil => simp [firstPixelIndex]
        | cons y ys ihy =>
          by_cases hmy : m < y <;> simp [firstPixelIndex, hmy] <;> omega
      have := ih hxs
      simp [List.countP_cons, firstPixelIndex, hmx, this]
      try omega

theorem combinePk_ne_none (mode : String) (h : validNoiseEstimate mode)
    (k a n d c : List ℚ) : combinePk mode k a n d c ≠ none := by
  rcases h with h | h | h | h | h <;> subst h <;> simp [combinePk]

theorem combinePk_none (mode : String) (h : ¬ validNoiseEstimate mode)
    (k a n d c : List ℚ) : combinePk mode k a n d c = none := by
  simp only [validNoiseEstimate, not_or] at h
  obtain ⟨h1, h2, h3, h4, h5⟩ := h
  rw [combinePk, if_neg h1, if_neg (by tauto), if_neg (by tauto)]

theorem runParts_ok (f : ℕ → Except PkError (Option PartResult)) :
    ∀ L : List ℕ, (∀ i ∈ L, ∃ r, f i = .ok r) →
      runParts f L = .ok (L.filterMap (fun i => okPart (f i))) := by
  intro L
  induction L with
  | nil => intro _; rfl
  | cons i rest ih =>
    intro hf
    obtain ⟨r, hr⟩ := hf i (List.mem_cons_self i rest)
    have hrest := ih fun j hj => hf j (List.mem_cons_of_mem i hj)
    cases r with
    | none => simp [runParts, hr, hrest, List.filterMap_cons, okPart]
    | some pr => simp [runParts, hr, hrest, List.filterMap_cons, okPart]

theorem runParts_error (f : ℕ → Except PkError (Option PartResult)) :
    ∀ L : List ℕ,
      (∀ i ∈ L, f i = .ok none ∨ f i = .error .unboundLocalPk) →
      (∃ i ∈ L, f i = .error .unboundLocalPk) →
      runParts f L = .error .unboundLocalPk := by
  intro L
  induction L with
  | nil => intro _ hex; simp at hex
  | cons i rest ih =>
    intro hall hex
    rcases hall i (List.mem_cons_self i rest) with hi | hi
    · have hex' : ∃ j ∈ rest, f j = .error .unboundLocalPk := by
        obtain ⟨j, hj, hje⟩ := hex
        rcases List.mem_cons.mp hj with rfl | hj'
        · rw [hi] at hje; exact absurd hje (by simp)
        · exact ⟨j, hj', hje⟩
      have := ih (fun j hj => hall j (List.mem_cons_of_mem i hj)) hex'
      simp [runParts, hi, this]
    · simp [runParts, hi]

theorem processPart_skip (P : Pk1dPrims) (args : Args) (cfg : RunConfig)
    (delta : Delta) (mean_z : ℚ) (coord dl ediff iv : List ℚ)
    (hm : args.nb_pixel_masked_max < (partFill P args cfg coord dl ediff iv).2.2.2.2) :
    processPart P args cfg delta mean_z coord dl ediff iv = .ok none := by
  simp only [processPart]
  rw [if_pos hm]

theorem processPart_ok (P : Pk1dPrims) (args : Args) (cfg : RunConfig)
    (delta : Delta) (mean_z : ℚ) (coord dl ediff iv : List ℚ)
    (hmode : validNoiseEstimate args.noise_estimate)
    (hm : ¬ args.nb_pixel_masked_max < (partFill P args cfg coord dl ediff iv).2.2.2.2) :
    ∃ r, processPart P args cfg delta mean_z coord dl ediff iv = .ok (some r) := by
  simp only [processPart]
  rw [if_neg hm]
  split
  · rename_i heq
    exact absurd heq (combinePk_ne_none _ hmode _ _ _ _ _)
  · exact ⟨_, rfl⟩

theorem processPart_invalid (P : Pk1dPrims) (args : Args) (cfg : RunConfig)
    (delta : Delta) (mean_z : ℚ) (coord dl ediff iv : List ℚ)
    (hmode : ¬ validNoiseEstimate args.noise_estimate)
    (hm : ¬ args.nb_pixel_masked_max < (partFill P args cfg coord dl ediff iv).2.2.2.2) :
    processPart P args cfg delta mean_z coord dl ediff iv = .error .unboundLocalPk := by
  simp only [processPart]
  rw [if_neg hm, combinePk_none _ hmode]

theorem okPart_eq_none_iff (P : Pk1dPrims) (args : Args) (cfg : RunConfig)
    (delta : Delta) (mean_z : ℚ) (coord dl ediff iv : List ℚ)
    (hmode : validNoiseEstimate args.noise_estimate) :
    okPart (processPart P args cfg delta mean_z coord dl ediff iv) = none ↔
      args.nb_pixel_masked_max < (partFill P args cfg coord dl ediff iv).2.2.2.2 := by
  by_cases hm : args.nb_pixel_masked_max < (partFill P args cfg coord dl ediff iv).2.2.2.2
  · rw [processPart_skip P args cfg delta mean_z coord dl ediff iv hm]
    simp [okPart, hm]
  · obtain ⟨r, hr⟩ := processPart_ok P args cfg delta mean_z coord dl ediff iv hmode hm
    rw [hr]
    simp [okPart, hm]

theorem combinePk_elementwise (mode : String) (k a n d c pk : List ℚ)
    (hmode : validNoiseEstimate mode)
    (hk : k.length = a.length) (hn : n.length = a.length)
    (hd : d.length = a.length) (hc : c.length = a.length)
    (hcomb : combinePk mode k a n d c = some pk) :
    pk.length = a.length ∧
      ∀ i, i < a.length →
        pk.getD i 0 = (a.getD i 0 - noiseTerm mode k n d i) / c.getD i 0 := by
  rcases hmode with h | h | h | h | h <;> subst h <;>
    simp only [combinePk, if_true, if_false, true_or, or_true, false_or, or_false,
      Option.some.injEq] at hcomb
  · -- pipeline
    subst hcomb
    have hlen1 : (List.zipWith (fun a b => a - b) a n).length = a.length :=
      length_zipWith_eq _ _ _ hn.symm
    refine ⟨by simp [List.length_zipWith, hlen1, hc], ?_⟩
    intro i hi
    rw [getD_zipWith (fun a b => a / b) 0 0 0 _ _ i (by rw [hlen1]; exact hi)
        (by rw [hc]; exact hi),
      getD_zipWith (fun a b => a - b) 0 0 0 _ _ i hi (by rw [hn]; exact hi)]
    simp [noiseTerm]
  · -- diff
    rw [if_neg (show ¬ ("diff" : String) = "pipeline" by decide),
      Option.some.injEq] at hcomb
    subst hcomb
    have hlen1 : (List.zipWith (fun a b => a - b) a d).length = a.length :=
      length_zipWith_eq _ _ _ hd.symm
    refine ⟨by simp [List.length_zipWith, hlen1, hc], ?_⟩
    intro i hi
    rw [getD_zipWith (fun a b => a / b) 0 0 0 _ _ i (by rw [hlen1]; exact hi)
        (by rw [hc]; exact hi),
      getD_zipWith (fun a b => a - b) 0 0 0 _ _ i hi (by rw [hd]; exact hi)]
    simp [noiseTerm]
  · -- rebin_diff
    rw [if_neg (show ¬ ("rebin_diff" : String) = "pipeline" by decide),
      Option.some.injEq] at hcomb
    subst hcomb
    have hlen1 : (List.zipWith (fun a b => a - b) a d).length = a.length :=
      length_zipWith_eq _ _ _ hd.symm
    refine ⟨by simp [List.length_zipWith, hlen1, hc], ?_⟩
    intro i hi
    rw [getD_zipWith (fun a b => a / b) 0 0 0 _ _ i (by rw [hlen1]; exact hi)
        (by rw [hc]; exact hi),
      getD_zipWith (fun a b => a - b) 0 0 0 _ _ i hi (by rw [hd]; exact hi)]
    simp [noiseTerm]
  · -- mean_diff
    rw [if_neg (show ¬ ("mean_diff" : String) = "pipeline" by decide),
      if_neg (show ¬ (("mean_diff" : String) = "diff" ∨ ("mean_diff" : String) = "rebin_diff")
        by decide),
      if_neg (show ¬ ("mean_diff" : String) = "mean_rebin_diff" by decide),
      Option.some.injEq] at hcomb
    subst hcomb
    have hmean : npmean (boolSelect d
        (k.map (fun x => decide (0 < x ∧ x < 0.02)))) = meanBand 0 0.02 k d := by
      rw [meanBand, boolSelect_map (fun x => decide (0 < x ∧ x < 0.02)) k d
        (hk.trans hd.symm)]
    have hlen1 : (a.map (fun x => x - npmean (boolSelect d
        (k.map (fun x => decide (0 < x ∧ x < 0.02)))))).length = a.length := by
      simp
    refine ⟨by simp [List.length_zipWith, hlen1, hc], ?_⟩
    intro i hi
    rw [getD_zipWith (fun a b => a / b) 0 0 0 _ _ i (by rw [hlen1]; exact hi)
        (by rw [hc]; exact hi),
      getD_map _ 0 0 _ i hi, hmean]
    simp [noiseTerm]
  · -- mean_rebin_diff
    rw [if_neg (show ¬ ("mean_rebin_diff" : String) = "pipeline" by decide),
      if_neg (show ¬ (("mean_rebin_diff" : String) = "diff" ∨
        ("mean_rebin_diff" : String) = "rebin_diff") by decide),
      Option.some.injEq] at hcomb
    subst hcomb
    have hmean : npmean (boolSelect d
        (k.map (fun x => decide (0.003 < x ∧ x < 0.02)))) = meanBand 0.003 0.02 k d := by
      rw [meanBand, boolSelect_map (fun x => decide (0.003 < x ∧ x < 0.02)) k d
        (hk.trans hd.symm)]
    have hlen1 : (a.map (fun x => x - npmean (boolSelect d
        (k.map (fun x => decide (0.003 < x ∧ x < 0.02)))))).length = a.length := by
      simp
    refine ⟨by simp [List.length_zipWith, hlen1, hc], ?_⟩
    intro i hi
    rw [getD_zipWith (fun a b => a / b) 0 0 0 _ _ i (by rw [hlen1]; exact hi)
        (by rw [hc]; exact hi),
      getD_map _ 0 0 _ i hi, hmean]
    simp [noiseTerm]

theorem zipWith_mul_ones : ∀ (acc b : List ℚ), acc.length = b.length →
    List.zipWith (fun a b => a * b) acc (b.map (fun _ => (1 : ℚ))) = acc := by
  intro acc
  induction acc with
  | nil => intro b h; simp
  | cons x xs ih =>
    intro b h
    cases b with
    | nil => simp at h
    | cons y ys =>
      rw [List.map_cons, List.zipWith_cons_cons, mul_one, ih ys (by simpa using h)]

theorem zipWith_mul_fuse (f g : ℚ → ℚ) : ∀ (a b : List ℚ),
    List.zipWith (fun x y => x * y)
        (List.zipWith (fun x y => x * y) a (b.map f)) (b.map g) =
      List.zipWith (fun x y => x * y) a (b.map (fun x => f x * g x)) := by
  intro a
  induction a with
  | nil => intro b; simp
  | cons x xs ih =>
    intro b
    cases b with
    | nil => simp
    | cons y ys => simp [ih ys, mul_assoc]

theorem zipWith_ones_mul : ∀ b : List ℚ,
    List.zipWith (fun a b => a * b) (List.replicate b.length 1) b = b := by
  intro b
  induction b with
  | nil => rfl
  | cons y ys ih => simp [List.replicate_succ, ih]

theorem dlaTransmission_foldl (prof : ℚ → ℚ → ℚ → ℚ) (lam : List ℚ) :
    ∀ (dlas : List (ℚ × ℚ)) (acc : List ℚ), acc.length = lam.length →
      dlas.foldl (fun acc zd => List.zipWith (fun a b => a * b) acc
          (lam.map (fun x => prof x zd.1 zd.2))) acc =
        List.zipWith (fun a b => a * b) acc
          (lam.map (fun x => (dlas.map (fun zd => prof x zd.1 zd.2)).prod)) := by
  intro dlas
  induction dlas with
  | nil =>
    intro acc h
    simp only [List.foldl_nil, List.map_nil, List.prod_nil]
    exact (zipWith_mul_ones acc lam h).symm
  | cons zd rest ih =>
    intro acc h
    simp only [List.foldl_cons]
    rw [ih (List.zipWith (fun a b => a * b) acc (lam.map (fun x => prof x zd.1 zd.2)))
        (by simp [List.length_zipWith, h]),
      zipWith_mul_fuse]
    simp [List.prod_cons]

theorem dlaTransmission_eq (prof : ℚ → ℚ → ℚ → ℚ) (lam : List ℚ)
    (dlas : List (ℚ × ℚ)) :
    dlaTransmission prof lam dlas =
      lam.map (fun x => (dlas.map (fun zd => prof x zd.1 zd.2)).prod) := by
  simp only [dlaTransmission]
  rw [dlaTransmission_foldl prof lam dlas (List.replicate lam.length 1) (by simp)]
  have h := zipWith_ones_mul (lam.map (fun x => (dlas.map (fun zd => prof x zd.1 zd.2)).prod))
  rw [List.length_map] at h
  exact h

theorem dlaTransmission_length (prof : ℚ → ℚ → ℚ → ℚ) (lam : List ℚ)
    (dlas : List (ℚ × ℚ)) :
    (dlaTransmission prof lam dlas).length = lam.length := by
  rw [dlaTransmission_eq]; simp

theorem foldl_and_getD {γ : Type} (lam : List ℚ) (c : γ → ℚ → Bool) :
    ∀ (zs : List γ) (w : List Bool), w.length = lam.length →
      ((zs.foldl (fun w z => List.zipWith (fun b x => b && c z x) w lam) w).length =
          lam.length ∧
        ∀ i, i < lam.length →
          (zs.foldl (fun w z => List.zipWith (fun b x => b && c z x) w lam) w).getD i false =
            (w.getD i false && zs.all (fun z => c z (lam.getD i 0)))) := by
  intro zs
  induction zs with
  | nil =>
    intro w hw
    exact ⟨hw, fun i hi => by simp⟩
  | cons z rest ih =>
    intro w hw
    have hw' : (List.zipWith (fun b x => b && c z x) w lam).length = lam.length := by
      simp [List.length_zipWith, hw]
    obtain ⟨ihlen, ihgetD⟩ := ih (List.zipWith (fun b x => b && c z x) w lam) hw'
    refine ⟨by simpa using ihlen, ?_⟩
    intro i hi
    rw [List.foldl_cons, ihgetD i hi,
      getD_zipWith (fun b x => b && c z x) false 0 false w lam i (by rw [hw]; exact hi) hi]
    simp [List.all_cons, Bool.and_assoc]

theorem maskFold_getD (lam : List ℚ) (dlas : List (ℚ × ℚ))
    (g : MaskRange → ℚ × ℚ → ℚ → Bool) :
    ∀ (mask : List MaskRange) (w : List Bool), w.length = lam.length →
      ((mask.foldl (fun w r => dlas.foldl
            (fun w zd => List.zipWith (fun b x => b && g r zd x) w lam) w) w).length =
          lam.length ∧
        ∀ i, i < lam.length →
          (mask.foldl (fun w r => dlas.foldl
              (fun w zd => List.zipWith (fun b x => b && g r zd x) w lam) w) w).getD i false =
            (w.getD i false &&
              mask.all (fun r => dlas.all (fun zd => g r zd (lam.getD i 0))))) := by
  intro mask
  induction mask with
  | nil =>
    intro w hw
    exact ⟨hw, fun i hi => by simp⟩
  | cons r rest ih =>
    intro w hw
    obtain ⟨slen, sgetD⟩ := foldl_and_getD lam (g r) dlas w hw
    obtain ⟨ihlen, ihgetD⟩ := ih
      (dlas.foldl (fun w zd => List.zipWith (fun b x => b && g r zd x) w lam) w) slen
    refine ⟨ihlen, ?_⟩
    intro i hi
    rw [List.foldl_cons, ihgetD i hi, sgetD i hi]
    simp [List.all_cons, Bool.and_assoc]

theorem keepMask_length_getD (prof : ℚ → ℚ → ℚ → ℚ) (limit : ℚ)
    (mask : List MaskRange) (lam : List ℚ) (dlas : List (ℚ × ℚ)) :
    (keepMask prof limit mask lam dlas).length = lam.length ∧
      ∀ i, i < lam.length →
        (keepMask prof limit mask lam dlas).getD i false =
          (decide (limit < (dlaTransmission prof lam dlas).getD i 0) &&
            mask.all (fun r => dlas.all (fun zd =>
              decide (lam.getD i 0 / (1 + zd.1) < r.wave_min ∨
                r.wave_max < lam.getD i 0 / (1 + zd.1))))) := by
  have h0len : ((dlaTransmission prof lam dlas).map
      (fun t => decide (limit < t))).length = lam.length := by
    simp [dlaTransmission_length]
  obtain ⟨hlen, hget⟩ := maskFold_getD lam dlas
    (fun r zd x => decide (x / (1 + zd.1) < r.wave_min ∨ r.wave_max < x / (1 + zd.1)))
    mask ((dlaTransmission prof lam dlas).map (fun t => decide (limit < t))) h0len
  constructor
  · exact hlen
  · intro i hi
    have h := hget i hi
    rw [getD_map (fun t => decide (limit < t)) 0 false _ i
      (by rw [dlaTransmission_length]; exact hi)] at h
    exact h

theorem checkFileRest_mem_error (pow10 : ℚ → ℚ) (lin : Bool) (dl : ℚ) :
    ∀ (files : List (List (List ℚ))) (f : List (List ℚ)), f ∈ files →
      ∀ (d : List ℚ) (p2 : Bool × ℚ), f.head? = some d →
        check_linear_binning pow10 d = .ok p2 → p2 ≠ (lin, dl) →
        ∃ e, checkFileRest pow10 lin dl files = .error e := by
  intro files
  induction files with
  | nil => intro f hf; simp at hf
  | cons g rest ih =>
    intro f hf d p2 hd hc hne
    rcases List.mem_cons.mp hf with h | h
    · subst h
      exact ⟨.inhomogeneous, by simp [checkFileRest, hd, hc, hne]⟩
    · cases hg : g.head? with
      | none => exact ⟨.indexError, by simp [checkFileRest, hg]⟩
      | some d0 =>
        cases hcg : check_linear_binning pow10 d0 with
        | error e => exact ⟨.binningError e, by simp [checkFileRest, hg, hcg]⟩
        | ok p =>
          by_cases hp : p = (lin, dl)
          · obtain ⟨e, he⟩ := ih f h d p2 hd hc hne
            exact ⟨e, by simp [checkFileRest, hg, hcg, hp, he]⟩
          · exact ⟨.inhomogeneous, by simp [checkFileRest, hg, hcg, hp]⟩

/-! ## The claims -/

/-- C2: For every monotonically increasing coordinate array of length ≥ 2,
the binning classifier returns (linear=true, bin width = median of the
elementwise linear differences) when the 25th-minus-5th-percentile gap of
the linear differences is below 1e-6; otherwise returns (linear=false,
bin width = median of the log differences) when the log-difference
percentile gap is below 1e-6 and the 5th-percentile log difference is
below 0.01; otherwise it raises, raising the
wavelength-passed-as-log-wavelength error exactly when the 5th-percentile
log difference is ≥ 0.01 and the cannot-classify error otherwise. -/
theorem c2_binning_classifier (pow10 : ℚ → ℚ) (log_lambda : List ℚ)
    (hlen : 2 ≤ log_lambda.length) (hmono : log_lambda.Pairwise (· < ·)) :
    binningClassifierSpec pow10 log_lambda := by
  refine ⟨fun h1 => by simp [check_linear_binning, h1],
    fun h1 h2 => by simp [check_linear_binning, h1, h2], ?_, ?_⟩ <;>
  · by_cases h1 : percentile 25 (npdiff (log_lambda.map pow10)) -
        percentile 5 (npdiff (log_lambda.map pow10)) < 1e-6
    · simp [check_linear_binning, h1]
    · by_cases h2 : percentile 25 (npdiff log_lambda) -
          percentile 5 (npdiff log_lambda) < 1e-6 ∧
          percentile 5 (npdiff log_lambda) < 0.01
      · simp [check_linear_binning, h1, h2]
      · by_cases h3 : percentile 5 (npdiff log_lambda) ≥ 0.01
        · have h4 : ¬ percentile 5 (npdiff log_lambda) < 0.01 := not_lt.mpr h3
          simp [check_linear_binning, h1, h2, h3, h4]
        · have h4 : percentile 5 (npdiff log_lambda) < 0.01 := lt_of_not_ge h3
          have h5 : ¬ (percentile 25 (npdiff log_lambda) -
              percentile 5 (npdiff log_lambda) < 1e-6) := fun hA => h2 ⟨hA, h4⟩
          simp [check_linear_binning, h1, h2, h3, h4, h5]

/-- Witness for C2 at the concrete grid [0, 1] (with the identity in
place of `10^x`). -/
theorem c2_binning_classifier_witness :
    2 ≤ ([(0 : ℚ), 1] : List ℚ).length ∧
      ([(0 : ℚ), 1] : List ℚ).Pairwise (· < ·) ∧
      binningClassifierSpec (fun x => x) [(0 : ℚ), 1] :=
  ⟨by decide, by decide,
    c2_binning_classifier (fun x => x) [(0 : ℚ), 1] (by decide) (by decide)⟩

/-- C5: For every spectrum that passes the selection cuts (and a
positive requested part count and positive minimum segment size), the
number of segments requested from the forest splitter (`nParts`, which
`process_file` passes to `split_forest` — see `splitData`) equals
`min(nb_part, (total_pixels − first_pixel_index) // nb_pixel_min)`, and
is at least 1 whenever the spectrum passed the minimum-pixel cut. -/
theorem c5_segment_count (P : Pk1dPrims) (args : Args) (delta : Delta)
    (hpart : 1 ≤ args.nb_part) (hmin : 1 ≤ args.nb_pixel_min)
    (hpass : args.nb_pixel_min ≤ delta.log_lambda.length - firstPix P args delta) :
    nParts P args delta =
      min args.nb_part
        ((delta.log_lambda.length - firstPix P args delta) / args.nb_pixel_min) ∧
      1 ≤ nParts P args delta := by
  refine ⟨rfl, ?_⟩
  have h : 1 ≤ (delta.log_lambda.length - firstPix P args delta) / args.nb_pixel_min :=
    (Nat.one_le_div_iff hmin).mpr hpass
  exact le_min hpart h

/-- Witness for C5: `argsA` (nb_part = 1, nb_pixel_min = 1) on `deltaA`
(2 pixels, both past the floor). -/
theorem c5_segment_count_witness :
    nParts trivialPrims argsA deltaA =
      min argsA.nb_part
        ((deltaA.log_lambda.length - firstPix trivialPrims argsA deltaA) /
          argsA.nb_pixel_min) ∧
      1 ≤ nParts trivialPrims argsA deltaA :=
  c5_segment_count trivialPrims argsA deltaA (by decide) (by decide) (by decide)

/-- C6: For every forest whose line-of-sight id has no entry in the DLA
catalogue, `DlaMask.apply_mask` is an identity: every mask field of the
forest and its transmission-correction factor are left unchanged. -/
theorem c6_dla_mask_noop (pow10 : ℚ → ℚ) (prof : ℚ → ℚ → ℚ → ℚ)
    (m : DlaMask) (f : Forest)
    (h : lookupLos m.los_ids f.los_id = none) :
    apply_mask pow10 prof m f = f := by
  simp [apply_mask, h]

/-- Witness for C6: a mask with an empty catalogue on `forestA`. -/
theorem c6_dla_mask_noop_witness :
    apply_mask (fun x => x) (fun x _ _ => x) dlaMaskA forestA = forestA :=
  c6_dla_mask_noop (fun x => x) (fun x _ _ => x) dlaMaskA forestA rfl

/-- C10: After `DesiData.set_blinding` runs, `Forest.blinding` equals
"none" whenever `is_mock` or `is_sv` is true and equals "corr_yshift" in
every other case, regardless of the blinding strategy given in the
configuration; the configured value only determines whether a warning is
logged, never the resulting blinding. -/
theorem c10_blinding_forced (b : String) (is_mock is_sv : Bool) :
    (set_blinding b is_mock is_sv).1 =
      (if is_mock || is_sv then "none" else "corr_yshift") ∧
    ((set_blinding b is_mock is_sv).2 = true ↔
      b ≠ (if is_mock || is_sv then "none" else "corr_yshift")) := by
  cases is_mock <;> cases is_sv <;>
    by_cases hb1 : b = "none" <;> by_cases hb2 : b = "corr_yshift" <;>
      simp_all [set_blinding]

/-- C3 counterexample: in the batch consisting of one input file with
two log-binned spectra of bin widths 0.008 and 0.009 (wavelengths given
by `pow10grid`, the double-precision `10^x` on these grids), the second
spectrum's classification `(log, 0.009)` differs from the first's
`(log, 0.008)` in the bin width, yet the whole run completes without any
error: spectra other than the first of each file are never re-classified
(`main` checks `deltas[0]` only, line 223). -/
theorem c3_counterexample :
    check_linear_binning pow10grid [(0 : ℚ), 0.008, 0.016, 0.024] =
      .ok (false, 0.008) ∧
    check_linear_binning pow10grid [(0 : ℚ), 0.009, 0.018, 0.027] =
      .ok (false, 0.009) ∧
    checkFiles pow10grid
      [[[(0 : ℚ), 0.008, 0.016, 0.024], [(0 : ℚ), 0.009, 0.018, 0.027]]] =
      .ok () := by
  refine ⟨?_, ?_, ?_⟩ <;>
    norm_num [checkFiles, checkFileRest, check_linear_binning, npdiff, npmedian,
      percentile, sortQ, insertQ, pow10grid]

/-- C3 (amended): within one run, after the binning classification
computed on the first spectrum of the first input file, the *first
spectrum of every subsequent file* is re-classified and asserted to
match in both the linear/log boolean and the exact bin width; any
mismatch causes an immediate raised error aborting the whole run — never
a silent skip, never a retry.  (Spectra beyond the first within a file
are not checked.) -/
theorem c3_binning_mismatch_aborts (pow10 : ℚ → ℚ) (f0 : List (List ℚ))
    (rest : List (List (List ℚ))) (d0 : List ℚ) (p : Bool × ℚ)
    (h0 : f0.head? = some d0) (hc0 : check_linear_binning pow10 d0 = .ok p)
    (f : List (List ℚ)) (hf : f ∈ rest) (d : List ℚ) (p2 : Bool × ℚ)
    (hd : f.head? = some d) (hc : check_linear_binning pow10 d = .ok p2)
    (hne : p2 ≠ p) :
    ∃ e, checkFiles pow10 (f0 :: rest) = .error e := by
  obtain ⟨e, he⟩ := checkFileRest_mem_error pow10 p.1 p.2 rest f hf d p2 hd hc
    (by simpa using hne)
  exact ⟨e, by simp [checkFiles, h0, hc0, he]⟩

/-- Witness for the amended C3: two files whose first spectra classify
to log-binning widths 0.008 and 0.009 respectively (wavelengths again
from `pow10grid`); the run aborts with an error. -/
theorem c3_binning_mismatch_aborts_witness :
    ∃ e, checkFiles pow10grid
      [[[(0 : ℚ), 0.008, 0.016, 0.024]], [[(0 : ℚ), 0.009, 0.018, 0.027]]] =
      .error e :=
  c3_binning_mismatch_aborts pow10grid [[(0 : ℚ), 0.008, 0.016, 0.024]]
    [[[(0 : ℚ), 0.009, 0.018, 0.027]]] [(0 : ℚ), 0.008, 0.016, 0.024]
    (false, 0.008) rfl
    (by norm_num [check_linear_binning, npdiff, npmedian, percentile, sortQ,
      insertQ, pow10grid])
    [[(0 : ℚ), 0.009, 0.018, 0.027]] (List.mem_singleton.mpr rfl)
    [(0 : ℚ), 0.009, 0.018, 0.027] (false, 0.009) rfl
    (by norm_num [check_linear_binning, npdiff, npmedian, percentile, sortQ,
      insertQ, pow10grid])
    (by norm_num)

/-- C1: For every segment that survives the masked-pixel cut (one whose
record `process_file` emits), the final power spectrum equals
`(pk_raw − noise_term) / correction_reso` elementwise, where
`noise_term` is the Monte-Carlo pipeline noise power when the
noise-estimate mode is "pipeline", the difference-spectrum power for
modes "diff" and "rebin_diff", and the scalar mean of the difference
power over the wavenumber band 0 < k < 0.02 for "mean_diff" (over
0.003 < k < 0.02 for "mean_rebin_diff").  (The power arrays of the
record share a length, per the spec's invariant; the optional
force-output-in-velocity conversion, a separate later step, is off.) -/
theorem c1_final_power (P : Pk1dPrims) (args : Args) (cfg : RunConfig)
    (delta : Delta) (mean_z : ℚ) (coord dl ediff iv : List ℚ) (r : PartResult)
    (h : processPart P args cfg delta mean_z coord dl ediff iv = .ok (some r))
    (hmode : validNoiseEstimate args.noise_estimate)
    (hconv : (args.force_output_in_velocity && cfg.linear_binning) = false)
    (hk : r.k.length = r.pk_raw.length) (hn : r.pk_noise.length = r.pk_raw.length)
    (hd : r.pk_diff.length = r.pk_raw.length)
    (hc : r.correction_reso.length = r.pk_raw.length) :
    finalPowerSpec args.noise_estimate r := by
  simp only [processPart] at h
  by_cases hm : args.nb_pixel_masked_max <
      (partFill P args cfg coord dl ediff iv).2.2.2.2
  · rw [if_pos hm] at h
    exact absurd h (by simp)
  · rw [if_neg hm] at h
    split at h
    · exact absurd h (by simp)
    · rename_i pk0 heq
      rw [hconv] at h
      simp only [Bool.false_eq_true, if_false, Except.ok.injEq,
        Option.some.injEq] at h
      subst h
      unfold finalPowerSpec
      exact fun i hi =>
        (combinePk_elementwise args.noise_estimate _ _ _ _ _ _ hmode
          hk hn hd hc heq).2 i hi

/-- Witness for C1: one concrete segment under the `pipeline` mode; the
emitted record's `pk` is `[(2−1)/2] = [1/2]`. -/
theorem c1_final_power_witness :
    processPart trivialPrims argsA cfgA deltaA 0 [1] [2] [0] [1] =
      .ok (some partResultA) ∧
    finalPowerSpec argsA.noise_estimate partResultA := by
  have hEval : processPart trivialPrims argsA cfgA deltaA 0 [1] [2] [0] [1] =
      .ok (some partResultA) := by
    norm_num [processPart, partFill, partEdiff, partKRaw, partNoise, partCorrection,
      combinePk, npmean, boolSelect, List.zipWith, partResultA,
      trivialPrims, argsA, cfgA, deltaA]
  exact ⟨hEval, c1_final_power trivialPrims argsA cfgA deltaA 0 [1] [2] [0] [1] _
    hEval (Or.inl rfl) rfl rfl rfl rfl rfl⟩

/-- C4: `process_file` returns no output (None) exactly when the
spectrum has mean SNR ≤ the SNR floor, or mean resolution ≥ the
resolution ceiling, or fewer than `nb_pixel_min` pixels strictly past
the observed-wavelength floor; within an accepted spectrum, a segment is
omitted from the returned list exactly when its masked-pixel count
strictly exceeds `nb_pixel_masked_max`, while the remaining segments are
still emitted; neither kind of rejection raises an error.  (The
spectrum's wavelength grid is monotone, per the spec's data-model
invariant, and the noise-estimate mode is one of the five recognized
ones — otherwise surviving segments raise, see C9.) -/
theorem c4_rejection_policy (P : Pk1dPrims) (args : Args) (cfg : RunConfig)
    (delta : Delta)
    (hmono : (delta.log_lambda.map P.pow10).Pairwise (· ≤ ·))
    (hmode : validNoiseEstimate args.noise_estimate) :
    rejectionSpec P args cfg delta := by
  have hcnt : (delta.log_lambda.map P.pow10).countP
      (fun x => decide (args.lambda_obs_min < x)) =
      delta.log_lambda.length - firstPix P args delta := by
    rw [countP_firstPixelIndex _ _ hmono, List.length_map]
    rfl
  have hiff : ((delta.log_lambda.map P.pow10).countP
      (fun x => decide (args.lambda_obs_min < x)) < args.nb_pixel_min) ↔
      (delta.log_lambda.length - firstPix P args delta < args.nb_pixel_min) := by
    rw [hcnt]
  constructor
  · constructor
    · intro h
      by_cases h1 : delta.mean_snr ≤ args.SNR_min ∨ args.reso_max ≤ delta.mean_reso
      · rcases h1 with h1 | h1
        · exact Or.inl h1
        · exact Or.inr (Or.inl h1)
      · by_cases h2 : delta.log_lambda.length - firstPix P args delta <
            args.nb_pixel_min
        · exact Or.inr (Or.inr (hiff.mpr h2))
        · exfalso
          simp only [process_file] at h
          rw [if_neg h1, if_neg h2] at h
          cases hrp : runParts (partRun P args cfg delta)
              (List.range (nParts P args delta)) with
          | error e => rw [hrp] at h; exact absurd h (by simp)
          | ok l => rw [hrp] at h; exact absurd h (by simp)
    · intro h
      simp only [process_file]
      by_cases h1 : delta.mean_snr ≤ args.SNR_min ∨ args.reso_max ≤ delta.mean_reso
      · rw [if_pos h1]
      · rcases h with h | h | h
        · exact absurd (Or.inl h) h1
        · exact absurd (Or.inr h) h1
        · rw [if_neg h1, if_pos (hiff.mp h)]
  · intro hnr
    have h1 : ¬ (delta.mean_snr ≤ args.SNR_min ∨ args.reso_max ≤ delta.mean_reso) := by
      intro h
      rcases h with h | h
      · exact hnr (Or.inl h)
      · exact hnr (Or.inr (Or.inl h))
    have h2 : ¬ (delta.log_lambda.length - firstPix P args delta <
        args.nb_pixel_min) := fun h => hnr (Or.inr (Or.inr (hiff.mpr h)))
    have hparts : ∀ i ∈ List.range (nParts P args delta),
        ∃ r, partRun P args cfg delta i = .ok r := by
      intro i _
      by_cases hm : args.nb_pixel_masked_max < partMasked P args cfg delta i
      · exact ⟨none, processPart_skip _ _ _ _ _ _ _ _ _ hm⟩
      · obtain ⟨r, hr⟩ := processPart_ok P args cfg delta
          (partArgsOf P args cfg delta i).1 (partArgsOf P args cfg delta i).2.1
          (partArgsOf P args cfg delta i).2.2.1
          (partArgsOf P args cfg delta i).2.2.2.1
          (partArgsOf P args cfg delta i).2.2.2.2 hmode hm
        exact ⟨some r, hr⟩
    constructor
    · simp only [process_file]
      rw [if_neg h1, if_neg h2, runParts_ok _ _ hparts]
    · intro i _
      exact okPart_eq_none_iff P args cfg delta
        (partArgsOf P args cfg delta i).1 (partArgsOf P args cfg delta i).2.1
        (partArgsOf P args cfg delta i).2.2.1
        (partArgsOf P args cfg delta i).2.2.2.1
        (partArgsOf P args cfg delta i).2.2.2.2 hmode

/-- Witness for C4: `argsA` (pipeline mode) on `deltaA` with the trivial
helpers. -/
theorem c4_rejection_policy_witness :
    validNoiseEstimate argsA.noise_estimate ∧
      rejectionSpec trivialPrims argsA cfgA deltaA :=
  ⟨Or.inl rfl,
    c4_rejection_policy trivialPrims argsA cfgA deltaA (by decide) (Or.inl rfl)⟩

/-- C9: If the noise-estimate option is any string other than
"pipeline", "diff", "rebin_diff", "mean_diff", or "mean_rebin_diff", it
is not rejected at startup (argparse places no `choices=` constraint on
`--noise-estimate`, and `main` never inspects the value; `process_file`
receives the arbitrary string, as the hypotheses here allow); instead,
for any spectrum with at least one segment passing the masked-pixel cut,
`process_file` raises an unhandled exception when packaging results,
because the local variable `pk` is read without ever having been
assigned by any combine branch (lines 411–427). -/
theorem c9_unknown_noise_estimate (P : Pk1dPrims) (args : Args) (cfg : RunConfig)
    (delta : Delta)
    (hmode : ¬ validNoiseEstimate args.noise_estimate)
    (hsel : ¬ (delta.mean_snr ≤ args.SNR_min ∨ args.reso_max ≤ delta.mean_reso))
    (hpix : ¬ (delta.log_lambda.length - firstPix P args delta < args.nb_pixel_min))
    (hsurv : ∃ i, i < nParts P args delta ∧
      partMasked P args cfg delta i ≤ args.nb_pixel_masked_max) :
    process_file P args cfg delta = .error .unboundLocalPk := by
  obtain ⟨i0, hi0, hm0⟩ := hsurv
  have hall : ∀ i ∈ List.range (nParts P args delta),
      partRun P args cfg delta i = .ok none ∨
        partRun P args cfg delta i = .error .unboundLocalPk := by
    intro i _
    by_cases hm : args.nb_pixel_masked_max < partMasked P args cfg delta i
    · exact Or.inl (processPart_skip _ _ _ _ _ _ _ _ _ hm)
    · exact Or.inr (processPart_invalid P args cfg delta
        (partArgsOf P args cfg delta i).1 (partArgsOf P args cfg delta i).2.1
        (partArgsOf P args cfg delta i).2.2.1
        (partArgsOf P args cfg delta i).2.2.2.1
        (partArgsOf P args cfg delta i).2.2.2.2 hmode hm)
  have hex : ∃ i ∈ List.range (nParts P args delta),
      partRun P args cfg delta i = .error .unboundLocalPk :=
    ⟨i0, List.mem_range.mpr hi0, processPart_invalid P args cfg delta
      (partArgsOf P args cfg delta i0).1 (partArgsOf P args cfg delta i0).2.1
      (partArgsOf P args cfg delta i0).2.2.1
      (partArgsOf P args cfg delta i0).2.2.2.1
      (partArgsOf P args cfg delta i0).2.2.2.2 hmode (not_lt.mpr hm0)⟩
  simp only [process_file]
  rw [if_neg hsel, if_neg hpix, runParts_error _ _ hall hex]

/-- Witness for C9: mode "bogus" on `deltaA`, whose single segment has 0
masked pixels: `process_file` raises. -/
theorem c9_unknown_noise_estimate_witness :
    (¬ validNoiseEstimate argsB.noise_estimate) ∧
      process_file trivialPrims argsB cfgA deltaA = .error .unboundLocalPk :=
  ⟨by decide,
    c9_unknown_noise_estimate trivialPrims argsB cfgA deltaA (by decide)
      (by decide) (by decide) ⟨0, by decide, by decide⟩⟩

/-- C7: For every forest with at least one catalogued absorber,
`DlaMask.apply_mask` multiplies the forest's `transmission_correction`
by the product of `dla_profile` over all absorbers on that line of
sight, and the keep-mask passed to the masker holds exactly at pixels
where this cumulative transmission is strictly greater than the
configured dla mask limit and where, for every configured rest-frame
exclusion range and every absorber on that line of sight, the pixel's
rest-frame wavelength `lambda/(1+z_abs)` lies outside the range. -/
theorem c7_dla_mask_semantics (pow10 : ℚ → ℚ) (prof : ℚ → ℚ → ℚ → ℚ)
    (m : DlaMask) (f : Forest) (dlas : List (ℚ × ℚ))
    (h : lookupLos m.los_ids f.los_id = some dlas) (hne : dlas ≠ [])
    (htc : f.transmission_correction.length = f.log_lambda.length) :
    dlaMaskSpec pow10 prof m f dlas := by
  refine ⟨?_, ?_, ?_⟩
  · simp [apply_mask, h]
  · intro i hi
    rw [getD_zipWith (fun a b => a * b) 0 0 0 _ _ i (by rw [htc]; exact hi)
        (by rw [dlaTransmission_length]; simpa using hi),
      dlaTransmission_eq,
      getD_map _ 0 0 _ i (by simpa using hi)]
  · intro i hi
    have hlam : i < (f.log_lambda.map pow10).length := by simpa using hi
    rw [(keepMask_length_getD prof m.dla_mask_limit m.mask
      (f.log_lambda.map pow10) dlas).2 i hlam]
    simp [List.all_eq_true, decide_eq_true_eq]

/-- Witness for C7: one absorber on line of sight 7 with one exclusion
range (`dlaMaskB` applied to `forestA`). -/
theorem c7_dla_mask_semantics_witness :
    lookupLos dlaMaskB.los_ids forestA.los_id = some [((1 : ℚ), (2 : ℚ))] ∧
      dlaMaskSpec (fun x => x) (fun x _ _ => x) dlaMaskB forestA [((1 : ℚ), (2 : ℚ))] :=
  ⟨rfl, c7_dla_mask_semantics (fun x => x) (fun x _ _ => x) dlaMaskB forestA
    [((1 : ℚ), (2 : ℚ))] rfl (by simp) rfl⟩

/-- C8: For every forest and every keep-mask: with
`keep_masked_pixels = true` the masker zeroes ivar at the masked indices
and leaves the length of every mask field, and the contents of every
field other than ivar, unchanged; with `keep_masked_pixels = false` it
removes the masked pixels from every mask field, slicing 1D arrays by
the keep-mask and the 2D resolution matrix along its second (column)
axis, so every field's length decreases by exactly the masked-pixel
count. -/
theorem c8_masking_policies (w : List Bool) (f : Forest)
    (h1 : f.log_lambda.length = w.length) (h2 : f.flux.length = w.length)
    (h3 : f.ivar.length = w.length) (h4 : f.exposures_diff.length = w.length)
    (h5 : f.transmission_correction.length = w.length)
    (h6 : ∀ row ∈ f.resolution_matrix, row.length = w.length) :
    maskingPolicySpec w f := by
  refine ⟨⟨rfl, ?_, ?_⟩, ?_, ?_, ?_, ?_, ?_, rfl, ?_⟩
  · simp [masker, setIvarToZero, List.length_zipWith, h3]
  · intro i hi
    exact getD_zipWith (fun x b => if b then x else 0) 0 false 0 f.ivar w i
      (by rw [h3]; exact hi) hi
  · exact boolSelect_length f.log_lambda w h1
  · exact boolSelect_length f.flux w h2
  · exact boolSelect_length f.ivar w h3
  · exact boolSelect_length f.exposures_diff w h4
  · exact boolSelect_length f.transmission_correction w h5
  · intro row hrow
    exact boolSelect_length row w (h6 row hrow)

/-- Witness for C8: `forestA` with the keep-mask `[true, false]`. -/
theorem c8_masking_policies_witness :
    forestA.ivar.length = [true, false].length ∧
      maskingPolicySpec [true, false] forestA :=
  ⟨by decide,
    c8_masking_policies [true, false] forestA rfl rfl rfl rfl rfl
      (by intro row hrow; simp [forestA] at hrow; simp [hrow])⟩
